import Mathlib

/- Shallow embedding of the notation transformation engine of the tansen
   backend: app/services/transposition_service.py and
   app/services/notation_service.py.

   Pitch and key strings are modeled as lists of characters.  Note records
   are structures carrying exactly the fields the services read and write;
   event times and velocities are only copied by the code, so they are
   modeled opaquely as integers.  Fallible operations return Except, with
   one error constructor standing for the designated error named by the
   specification (the Python code raises ValueError in both places). -/

namespace Tansen

/-- Value of a decimal digit character, as Python int() applied to a single
digit character. -/
def digitVal (c : Char) : Nat := c.toNat - 48

/-- The decimal digit character for a digit value below 10. -/
def digitChar (n : Nat) : Char := Char.ofNat (48 + n)

/-- Decimal rendering of a natural number, with explicit structural fuel
(the first argument); fuel n always suffices for rendering n since the
value shrinks by a factor of ten per step. -/
def natToCharsAux : Nat → Nat → List Char
  | 0, n => [digitChar (n % 10)]
  | f + 1, n => if n < 10 then [digitChar n] else natToCharsAux f (n / 10) ++ [digitChar (n % 10)]

/-- Decimal rendering of a natural number, as Python str(). -/
def natToChars (n : Nat) : List Char := natToCharsAux n n

/-- Decimal rendering of an integer, as Python str(): a minus sign followed
by the digits of the absolute value when negative. -/
def intToChars (i : Int) : List Char :=
  if i < 0 then '-' :: natToChars i.natAbs else natToChars i.toNat

/-- TranspositionService.NOTE_NAMES: the chromatic scale with sharps. -/
def NOTE_NAMES : List (List Char) :=
  [['C'], ['C', '#'], ['D'], ['D', '#'], ['E'], ['F'],
   ['F', '#'], ['G'], ['G', '#'], ['A'], ['A', '#'], ['B']]

/-- TranspositionService.NOTE_NAMES_FLAT: the chromatic scale with flats. -/
def NOTE_NAMES_FLAT : List (List Char) :=
  [['C'], ['D', 'b'], ['D'], ['E', 'b'], ['E'], ['F'],
   ['G', 'b'], ['G'], ['A', 'b'], ['A'], ['B', 'b'], ['B']]

/-- Python list.index, returning none where list.index raises ValueError. -/
def listIndex {α : Type} [DecidableEq α] (a : α) : List α → Option Nat
  | [] => none
  | b :: bs => if b = a then some 0 else (listIndex a bs).map (· + 1)

/-- TranspositionService._normalize_key: convert the five flat aliases to
sharps, leave every other string unchanged. -/
def normalize_key (key : List Char) : List Char :=
  if key = "Db".toList then "C#".toList
  else if key = "Eb".toList then "D#".toList
  else if key = "Gb".toList then "F#".toList
  else if key = "Ab".toList then "G#".toList
  else if key = "Bb".toList then "A#".toList
  else key

/-- The try sharps, on ValueError try flats lookup pattern used by both
calculate_semitone_difference and transpose_pitch. -/
def lookupKeyIndex (k : List Char) : Option Nat :=
  match listIndex k NOTE_NAMES with
  | some i => some i
  | none => listIndex k NOTE_NAMES_FLAT

/-- The designated error of the transposition engine (the spec calls it
InvalidKeyError; the Python code raises ValueError from list.index). -/
inductive TranspositionError where
  | invalidKeyError
  deriving DecidableEq, Repr

/-- TranspositionService.calculate_semitone_difference. -/
def calculate_semitone_difference (from_key to_key : List Char) :
    Except TranspositionError Int :=
  match lookupKeyIndex (normalize_key from_key) with
  | none => .error .invalidKeyError
  | some from_pos =>
    match lookupKeyIndex (normalize_key to_key) with
    | none => .error .invalidKeyError
    | some to_pos => .ok ((to_pos : Int) - (from_pos : Int))

/-- The pitch-string parse shared verbatim by transpose_pitch,
convert_to_sargam and convert_to_western: a string of length at least 2
whose second character is a digit parses as a one-character name and that
digit as the octave; otherwise, if the third character exists and is a
digit, the first two characters are the name and that digit the octave;
anything else fails.  Characters after the octave digit are dropped. -/
def parse_pitch : List Char → Option (List Char × Nat)
  | c0 :: c1 :: rest =>
    if c1.isDigit then some ([c0], digitVal c1)
    else
      match rest with
      | c2 :: _ => if c2.isDigit then some ([c0, c1], digitVal c2) else none
      | [] => none
  | _ => none

/-- The loop: while new_pos < 0, add 12 to new_pos and decrement the octave
change.  Structural fuel: each step raises pos by 12, so natAbs pos steps
always suffice. -/
def wrapNegAux : Nat → Int → Int → Int × Int
  | 0, pos, oc => (pos, oc)
  | f + 1, pos, oc => if pos < 0 then wrapNegAux f (pos + 12) (oc - 1) else (pos, oc)

/-- The first octave-wrap loop of transpose_pitch. -/
def wrap_neg (pos oc : Int) : Int × Int := wrapNegAux pos.natAbs pos oc

/-- The loop: while new_pos >= 12, subtract 12 and increment the octave
change, with structural fuel as above. -/
def wrapBigAux : Nat → Int → Int → Int × Int
  | 0, pos, oc => (pos, oc)
  | f + 1, pos, oc => if 12 ≤ pos then wrapBigAux f (pos - 12) (oc + 1) else (pos, oc)

/-- The second octave-wrap loop of transpose_pitch. -/
def wrap_big (pos oc : Int) : Int × Int := wrapBigAux pos.natAbs pos oc

/-- NOTE_NAMES indexing (always in range where used). -/
def noteName (pos : Nat) : List Char := NOTE_NAMES.getD pos []

/-- TranspositionService.transpose_pitch: parse, normalize, look up the
chromatic index, add the delta, wrap into [0,12) carrying whole octaves,
and re-render; any parse or lookup failure returns the input unchanged. -/
def transpose_pitch (pitch : List Char) (semitones : Int) : List Char :=
  match parse_pitch pitch with
  | none => pitch
  | some (raw_name, octave) =>
    match lookupKeyIndex (normalize_key raw_name) with
    | none => pitch
    | some note_pos =>
      let w1 := wrap_neg ((note_pos : Int) + semitones) 0
      let w := wrap_big w1.1 w1.2
      noteName w.1.toNat ++ intToChars ((octave : Int) + w.2)

/-- A note record as the services see it: the pitch string (empty when the
key is absent), an optional auxiliary midi index, and the copied-through
event fields. -/
structure Note where
  pitch : List Char
  pitchMidi : Option Int
  startTime : Int
  duration : Int
  velocity : Int
  deriving DecidableEq, Repr

/-- The loop body of transpose_notes: a note with an empty pitch is copied
unchanged; otherwise the pitch is transposed and the auxiliary midi index,
when present, is shifted by the same delta. -/
def transpose_note_aux (d : Int) (note : Note) : Note :=
  if note.pitch = [] then note
  else { note with pitch := transpose_pitch note.pitch d,
                   pitchMidi := note.pitchMidi.map (fun m => m + d) }

/-- TranspositionService._apply_minor_scale_adjustments: returns the notes
as-is (the adjustment is unimplemented in the source). -/
def apply_minor_scale_adjustments (notes : List Note) (_key : List Char) : List Note :=
  notes

/-- TranspositionService.transpose_notes. -/
def transpose_notes (notes : List Note) (from_key to_key mode : List Char) :
    Except TranspositionError (List Note) :=
  match calculate_semitone_difference from_key to_key with
  | .error e => .error e
  | .ok d =>
    let transposed := notes.map (transpose_note_aux d)
    .ok (if mode = "minor".toList then apply_minor_scale_adjustments transposed to_key
         else transposed)

/-- TranspositionService.validate_transposition: false on a length
mismatch; indices where either pitch is empty are skipped; otherwise the
transposed pitch shifted back by the negated delta must equal the
original pitch. -/
def validate_transposition (original transposed : List Note) (semitones : Int) : Bool :=
  if original.length ≠ transposed.length then false
  else (original.zip transposed).all (fun ot =>
    if ot.1.pitch = [] ∨ ot.2.pitch = [] then true
    else decide (transpose_pitch ot.2.pitch (-semitones) = ot.1.pitch))

/-- NotationService.SargamStyle. -/
inductive SargamStyle where
  | hindustani
  | carnatic
  deriving DecidableEq, Repr

/-- NotationService.HINDUSTANI_SARGAM_MAP (keys in source dict order). -/
def HINDUSTANI_SARGAM_MAP : List (List Char × List Char) :=
  [(['C'], ['S', 'a']), (['C', '#'], ['R', 'e', '♭']),
   (['D'], ['R', 'e']), (['D', '#'], ['G', 'a', '♭']),
   (['E'], ['G', 'a']), (['F'], ['M', 'a']),
   (['F', '#'], ['M', 'a', '♯']), (['G'], ['P', 'a']),
   (['G', '#'], ['D', 'h', 'a', '♭']), (['A'], ['D', 'h', 'a']),
   (['A', '#'], ['N', 'i', '♭']), (['B'], ['N', 'i'])]

/-- NotationService.CARNATIC_SARGAM_MAP (keys in source dict order). -/
def CARNATIC_SARGAM_MAP : List (List Char × List Char) :=
  [(['C'], ['S']), (['C', '#'], ['R', '1']),
   (['D'], ['R', '2']), (['D', '#'], ['G', '1']),
   (['E'], ['G', '2']), (['F'], ['M', '1']),
   (['F', '#'], ['M', '2']), (['G'], ['P']),
   (['G', '#'], ['D', '1']), (['A'], ['D', '2']),
   (['A', '#'], ['N', '1']), (['B'], ['N', '2'])]

/-- Python dict.get with a default value, over an association list. -/
def mapGet (m : List (List Char × List Char)) (k dflt : List Char) : List Char :=
  match m with
  | [] => dflt
  | (k1, v) :: rest => if k1 = k then v else mapGet rest k dflt

/-- The apostrophe character (codepoint 39) appended as the upper-octave
marker. -/
def apostropheChar : Char := Char.ofNat 39

/-- Python str.lower(): character-wise lowercasing (the symbols involved
contain only ASCII letters, digits and the musical accidental signs, on
which the two agree). -/
def toLowerStr (s : List Char) : List Char := s.map Char.toLower

/-- The octave-marking step of convert_to_sargam: below octave 4
lowercase (the source has the same lowercasing in both style branches),
above octave 4 append one apostrophe, at octave 4 unchanged. -/
def sargam_mark (style : SargamStyle) (s : List Char) (octave : Nat) : List Char :=
  if octave < 4 then
    if style = SargamStyle.hindustani then toLowerStr s else toLowerStr s
  else if octave > 4 then s ++ [apostropheChar]
  else s

/-- An output entry of convert_to_sargam and convert_to_alphabetical:
a rendered note symbol plus the copied event fields. -/
structure OutNote where
  sym : List Char
  startTime : Int
  duration : Int
  velocity : Int
  deriving DecidableEq, Repr

/-- NotationService.convert_to_sargam: notes whose pitch fails to parse
are skipped; a parsed name is looked up in the style table with default
symbol Sa, then octave-marked.  (The base_key parameter of the source is
accepted but never read, so it is omitted.) -/
def convert_to_sargam (notes : List Note) (style : SargamStyle) : List OutNote :=
  notes.filterMap (fun note =>
    match parse_pitch note.pitch with
    | none => none
    | some (note_name, octave) =>
      let m := if style = SargamStyle.hindustani then HINDUSTANI_SARGAM_MAP
               else CARNATIC_SARGAM_MAP
      some { sym := sargam_mark style (mapGet m note_name ['S', 'a']) octave,
             startTime := note.startTime,
             duration := note.duration,
             velocity := note.velocity })

/-- An output entry of convert_to_western. -/
structure WesternNote where
  pitch : List Char
  noteName : List Char
  octave : Nat
  startTime : Int
  duration : Int
  velocity : Int
  deriving DecidableEq, Repr

/-- The result dictionary of convert_to_western minus its constant
format field (carried by the dispatcher result below). -/
structure WesternData where
  notes : List WesternNote
  timeSignature : List Char
  keySignature : List Char
  deriving DecidableEq, Repr

/-- NotationService.convert_to_western: same parse and skip policy as
convert_to_sargam, emitting the original pitch string plus its
decomposition, with constant time and key signatures. -/
def convert_to_western (notes : List Note) : WesternData :=
  { notes := notes.filterMap (fun note =>
      match parse_pitch note.pitch with
      | none => none
      | some (note_name, octave) =>
        some { pitch := note.pitch,
               noteName := note_name,
               octave := octave,
               startTime := note.startTime,
               duration := note.duration,
               velocity := note.velocity }),
    timeSignature := "4/4".toList,
    keySignature := "C".toList }

/-- Python duck typing for convert_to_alphabetical, which only reads the
pitch, startTime, duration and velocity keys of its input dictionaries
(both plain notes and the entries produced by convert_to_western have
them). -/
class PitchRecord (α : Type) where
  pitch : α → List Char
  startTime : α → Int
  duration : α → Int
  velocity : α → Int

instance : PitchRecord Note :=
  ⟨Note.pitch, Note.startTime, Note.duration, Note.velocity⟩

instance : PitchRecord WesternNote :=
  ⟨WesternNote.pitch, WesternNote.startTime, WesternNote.duration, WesternNote.velocity⟩

/-- NotationService.convert_to_alphabetical: one output entry per input
note, the symbol being the pitch string verbatim. -/
def convert_to_alphabetical {α : Type} [PitchRecord α] (notes : List α) : List OutNote :=
  notes.map (fun n =>
    { sym := PitchRecord.pitch n,
      startTime := PitchRecord.startTime n,
      duration := PitchRecord.duration n,
      velocity := PitchRecord.velocity n })

/-- The designated error of the notation dispatcher (the spec calls it
UnsupportedFormatError; the Python code raises ValueError). -/
inductive NotationError where
  | unsupportedFormatError
  deriving DecidableEq, Repr

/-- The format-tagged result of convert_notes. -/
inductive ConvertResult where
  | sargam (style : SargamStyle) (notes : List OutNote)
  | western (data : WesternData)
  | alphabetical (notes : List OutNote)
  deriving DecidableEq, Repr

/-- The format discriminator field of a convert_notes result. -/
def ConvertResult.formatField : ConvertResult → List Char
  | .sargam _ _ => "sargam".toList
  | .western _ => "western".toList
  | .alphabetical _ => "alphabetical".toList

/-- The style field of a convert_notes result (present only for Sargam). -/
def ConvertResult.styleField : ConvertResult → Option SargamStyle
  | .sargam style _ => some style
  | _ => none

/-- NotationService.convert_notes: dispatch on the format value (the
Python parameter is a str-valued enum, so arbitrary strings reach the
comparisons), with the designated error for unrecognized values. -/
def convert_notes (notes : List Note) (format : List Char) (sargam_style : SargamStyle) :
    Except NotationError ConvertResult :=
  if format = "sargam".toList then
    .ok (.sargam sargam_style (convert_to_sargam notes sargam_style))
  else if format = "western".toList then
    .ok (.western (convert_to_western notes))
  else if format = "alphabetical".toList then
    .ok (.alphabetical (convert_to_alphabetical notes))
  else .error .unsupportedFormatError

/- Specification-side definitions, written from the claim wording, to be
compared with the embedded code. -/

/-- The 12 canonical chromatic names together with their five flat
aliases: the key strings the claims call valid. -/
def CANONICAL_KEYS : List (List Char) :=
  [['C'], ['C', '#'], ['D'], ['D', '#'], ['E'], ['F'],
   ['F', '#'], ['G'], ['G', '#'], ['A'], ['A', '#'], ['B'],
   ['D', 'b'], ['E', 'b'], ['G', 'b'], ['A', 'b'], ['B', 'b']]

/-- Whether a key string matches one of the 12 canonical chromatic names
or their flat aliases. -/
def isValidKey (k : List Char) : Bool := decide (k ∈ CANONICAL_KEYS)

/-- The sharp-based chromatic index of the claims: C=0, C#=1, ..., B=11,
with each flat spelling aliased to its sharp equivalent. -/
def keyIndexSpec (k : List Char) : Nat :=
  if k = ['C'] then 0
  else if k = ['C', '#'] ∨ k = ['D', 'b'] then 1
  else if k = ['D'] then 2
  else if k = ['D', '#'] ∨ k = ['E', 'b'] then 3
  else if k = ['E'] then 4
  else if k = ['F'] then 5
  else if k = ['F', '#'] ∨ k = ['G', 'b'] then 6
  else if k = ['G'] then 7
  else if k = ['G', '#'] ∨ k = ['A', 'b'] then 8
  else if k = ['A'] then 9
  else if k = ['A', '#'] ∨ k = ['B', 'b'] then 10
  else 11

/-- Claim-side association-list lookup (first matching key wins). -/
def specLookup : List (List Char × List Char) → List Char → Option (List Char)
  | [], _ => none
  | (k1, v) :: rest, k => if k = k1 then some v else specLookup rest k

/-- The fixed 12-entry Hindustani table enumerated by the claims. -/
def HINDUSTANI_TABLE_SPEC : List (List Char × List Char) :=
  [(['C'], ['S', 'a']), (['C', '#'], ['R', 'e', '♭']),
   (['D'], ['R', 'e']), (['D', '#'], ['G', 'a', '♭']),
   (['E'], ['G', 'a']), (['F'], ['M', 'a']),
   (['F', '#'], ['M', 'a', '♯']), (['G'], ['P', 'a']),
   (['G', '#'], ['D', 'h', 'a', '♭']), (['A'], ['D', 'h', 'a']),
   (['A', '#'], ['N', 'i', '♭']), (['B'], ['N', 'i'])]

/-- The fixed 12-entry Carnatic table enumerated by the claims. -/
def CARNATIC_TABLE_SPEC : List (List Char × List Char) :=
  [(['C'], ['S']), (['C', '#'], ['R', '1']),
   (['D'], ['R', '2']), (['D', '#'], ['G', '1']),
   (['E'], ['G', '2']), (['F'], ['M', '1']),
   (['F', '#'], ['M', '2']), (['G'], ['P']),
   (['G', '#'], ['D', '1']), (['A'], ['D', '2']),
   (['A', '#'], ['N', '1']), (['B'], ['N', '2'])]

/-- The symbol the claims assign to a letter class in the selected style;
none for a letter class outside the 12-entry table. -/
def sargamSymbolSpec (style : SargamStyle) (k : List Char) : Option (List Char) :=
  specLookup (if style = SargamStyle.hindustani then HINDUSTANI_TABLE_SPEC
              else CARNATIC_TABLE_SPEC) k

/-- The octave rule of the claims: octave below 4 lowercases the symbol,
octave above 4 appends exactly one trailing apostrophe, octave 4 leaves
it unmodified. -/
def octaveRuleSpec (s : List Char) (octave : Nat) : List Char :=
  if octave < 4 then toLowerStr s
  else if octave > 4 then s ++ [apostropheChar]
  else s

/-- A pitch on which transposition by d semitones is guaranteed to round
trip: empty, unparseable, parseable with an unrecognized name (all three
pass through unchanged), or a canonical sharp-spelled name with a single
digit octave whose transposed octave is again a single digit. -/
def safePitch (d : Int) (p : List Char) : Prop :=
  p = []
  ∨ parse_pitch p = none
  ∨ (∃ nm o, parse_pitch p = some (nm, o) ∧ lookupKeyIndex (normalize_key nm) = none)
  ∨ (∃ pos o, pos < 12 ∧ o ≤ 9 ∧ p = noteName pos ++ [digitChar o]
       ∧ 0 ≤ (o : Int) + ((pos : Int) + d) / 12
       ∧ (o : Int) + ((pos : Int) + d) / 12 ≤ 9)

/-- The pointwise frame relation of the amended batch claim: order kept,
times and velocity unchanged, empty-pitch notes copied verbatim, and for
non-empty pitches the pitch transposed and the midi index shifted. -/
def frameRel (d : Int) (a b : Note) : Prop :=
  b.startTime = a.startTime ∧ b.duration = a.duration ∧ b.velocity = a.velocity
    ∧ (a.pitch = [] → b = a)
    ∧ (a.pitch ≠ [] → b.pitch = transpose_pitch a.pitch d
         ∧ b.pitchMidi = a.pitchMidi.map (fun m => m + d))

section Lemmas

/-- listIndex misses exactly the non-members. -/
lemma listIndex_eq_none_iff {α : Type} [DecidableEq α] (a : α) (l : List α) :
    listIndex a l = none ↔ a ∉ l := by
  induction l with
  | nil => simp [listIndex]
  | cons b bs ih =>
    by_cases hb : b = a
    · subst hb; simp [listIndex]
    · have he : listIndex a (b :: bs) = (listIndex a bs).map (· + 1) := by
        rw [listIndex, if_neg hb]
      rw [he, Option.map_eq_none', ih, List.mem_cons]
      constructor
      · intro h hc
        rcases hc with hc | hc
        · exact hb hc.symm
        · exact h hc
      · intro h hc
        exact h (Or.inr hc)

/-- The first wrap loop with sufficient fuel computes the euclidean
remainder and quotient by 12. -/
lemma wrapNegAux_spec (f : Nat) : ∀ (pos oc : Int), 0 ≤ pos + 12 * (f : Int) →
    wrapNegAux f pos oc = if pos < 0 then (pos % 12, oc + pos / 12) else (pos, oc) := by
  induction f with
  | zero =>
    intro pos oc h
    rw [wrapNegAux, if_neg (by push_cast at h; omega)]
  | succ f ih =>
    intro pos oc h
    rw [wrapNegAux]
    by_cases hp : pos < 0
    · rw [if_pos hp, ih (pos + 12) (oc - 1) (by push_cast at h ⊢; omega), if_pos hp]
      split_ifs with h2
      · simp only [Prod.mk.injEq]; exact ⟨by omega, by omega⟩
      · simp only [Prod.mk.injEq]; exact ⟨by omega, by omega⟩
    · rw [if_neg hp, if_neg hp]

/-- The first wrap loop as called (fuel natAbs pos always suffices). -/
lemma wrap_neg_spec (pos oc : Int) :
    wrap_neg pos oc = if pos < 0 then (pos % 12, oc + pos / 12) else (pos, oc) :=
  wrapNegAux_spec pos.natAbs pos oc (by omega)

/-- The second wrap loop with sufficient fuel. -/
lemma wrapBigAux_spec (f : Nat) : ∀ (pos oc : Int), pos ≤ 11 + 12 * (f : Int) →
    wrapBigAux f pos oc = if 12 ≤ pos then (pos % 12, oc + pos / 12) else (pos, oc) := by
  induction f with
  | zero =>
    intro pos oc h
    rw [wrapBigAux, if_neg (by push_cast at h; omega)]
  | succ f ih =>
    intro pos oc h
    rw [wrapBigAux]
    by_cases hp : 12 ≤ pos
    · rw [if_pos hp, ih (pos - 12) (oc + 1) (by push_cast at h ⊢; omega), if_pos hp]
      split_ifs with h2
      · simp only [Prod.mk.injEq]; exact ⟨by omega, by omega⟩
      · simp only [Prod.mk.injEq]; exact ⟨by omega, by omega⟩
    · rw [if_neg hp, if_neg hp]

/-- The second wrap loop as called. -/
lemma wrap_big_spec (pos oc : Int) :
    wrap_big pos oc = if 12 ≤ pos then (pos % 12, oc + pos / 12) else (pos, oc) :=
  wrapBigAux_spec pos.natAbs pos oc (by omega)

/-- The two loops in sequence normalize any position into [0, 12) with
the whole-octave carry: euclidean remainder and quotient by 12. -/
lemma wrap_combo (p : Int) :
    wrap_big (wrap_neg p 0).1 (wrap_neg p 0).2 = (p % 12, p / 12) := by
  rw [wrap_neg_spec]
  by_cases hp : p < 0
  · rw [if_pos hp]
    dsimp only
    rw [wrap_big_spec, if_neg (by omega)]
    exact Prod.ext_iff.mpr ⟨by omega, by omega⟩
  · rw [if_neg hp]
    dsimp only
    rw [wrap_big_spec]
    split_ifs with h2
    · exact Prod.ext_iff.mpr ⟨by omega, by omega⟩
    · exact Prod.ext_iff.mpr ⟨by omega, by omega⟩

/-- Digit characters are digits. -/
lemma digitChar_isDigit (o : Nat) (h : o ≤ 9) : (digitChar o).isDigit = true := by
  interval_cases o <;> decide

/-- digitVal inverts digitChar on digit values. -/
lemma digitVal_digitChar (o : Nat) (h : o ≤ 9) : digitVal (digitChar o) = o := by
  interval_cases o <;> decide

/-- Single-digit naturals render as one digit character. -/
lemma natToChars_small (n : Nat) (h : n ≤ 9) : natToChars n = [digitChar n] := by
  cases n with
  | zero => decide
  | succ m =>
    show natToCharsAux (m + 1) (m + 1) = _
    rw [natToCharsAux, if_pos (by omega)]

/-- Integers in [0, 9] render as one digit character. -/
lemma intToChars_small (i : Int) (h0 : 0 ≤ i) (h9 : i ≤ 9) :
    intToChars i = [digitChar i.toNat] := by
  rw [intToChars, if_neg (by omega)]
  exact natToChars_small i.toNat (by omega)

/-- Parsing a one-character name followed by a digit. -/
lemma parse_pitch_one (c : Char) (o : Nat) (ho : o ≤ 9) :
    parse_pitch ([c] ++ [digitChar o]) = some ([c], o) := by
  simp [parse_pitch, digitChar_isDigit o ho, digitVal_digitChar o ho]

/-- Parsing a two-character name whose second character is not a digit,
followed by a digit. -/
lemma parse_pitch_two (c0 c1 : Char) (o : Nat) (hc1 : c1.isDigit = false) (ho : o ≤ 9) :
    parse_pitch ([c0, c1] ++ [digitChar o]) = some ([c0, c1], o) := by
  simp [parse_pitch, hc1, digitChar_isDigit o ho, digitVal_digitChar o ho]

/-- Parsing a canonical note name followed by a digit octave. -/
lemma parse_pitch_noteName (pos o : Nat) (hpos : pos < 12) (ho : o ≤ 9) :
    parse_pitch (noteName pos ++ [digitChar o]) = some (noteName pos, o) := by
  have hsharp : ('#').isDigit = false := by decide
  interval_cases pos <;>
    first
      | exact parse_pitch_one _ o ho
      | exact parse_pitch_two _ _ o hsharp ho

/-- Canonical note names normalize to themselves and resolve to their own
chromatic index. -/
lemma lookup_noteName (pos : Nat) (hpos : pos < 12) :
    lookupKeyIndex (normalize_key (noteName pos)) = some pos := by
  interval_cases pos <;> decide

/-- Transposing a canonical pitch: the chromatic index moves by the delta
modulo 12 and the octave absorbs the euclidean carry. -/
lemma transpose_pitch_noteName (pos o : Nat) (hpos : pos < 12) (ho : o ≤ 9) (n : Int) :
    transpose_pitch (noteName pos ++ [digitChar o]) n
      = noteName (((pos : Int) + n) % 12).toNat
        ++ intToChars ((o : Int) + ((pos : Int) + n) / 12) := by
  simp only [transpose_pitch, parse_pitch_noteName pos o hpos ho, lookup_noteName pos hpos]
  rw [wrap_combo]

/-- Round trip for a canonical pitch whose transposed octave stays a
single digit. -/
lemma transpose_pitch_roundtrip_aux (pos o : Nat) (n : Int) (hpos : pos < 12) (ho : o ≤ 9)
    (hlo : 0 ≤ (o : Int) + ((pos : Int) + n) / 12)
    (hhi : (o : Int) + ((pos : Int) + n) / 12 ≤ 9) :
    transpose_pitch (transpose_pitch (noteName pos ++ [digitChar o]) n) (-n)
      = noteName pos ++ [digitChar o] := by
  rw [transpose_pitch_noteName pos o hpos ho n]
  set r : Int := ((pos : Int) + n) % 12 with hr
  set q : Int := ((pos : Int) + n) / 12 with hq
  rw [intToChars_small ((o : Int) + q) hlo hhi]
  rw [transpose_pitch_noteName r.toNat ((o : Int) + q).toNat (by omega) (by omega) (-n)]
  have hrnn : ((r.toNat : Int)) = r := Int.toNat_of_nonneg (by omega)
  have hqnn : ((((o : Int) + q).toNat : Int)) = (o : Int) + q := Int.toNat_of_nonneg (by omega)
  rw [hrnn, hqnn]
  have e1 : ((r + -n) % 12).toNat = pos := by omega
  have e2 : (o : Int) + q + (r + -n) / 12 = (o : Int) := by omega
  rw [e1, e2, intToChars_small (o : Int) (by omega) (by omega)]
  simp

/-- Strings shorter than two characters fail to parse. -/
lemma parse_pitch_short (p : List Char) (h : p.length < 2) : parse_pitch p = none := by
  cases p with
  | nil => rfl
  | cons a t =>
    cases t with
    | nil => rfl
    | cons b t2 => simp at h; omega

/-- transpose_pitch passes unparseable strings through unchanged. -/
lemma transpose_pitch_unparsed (p : List Char) (n : Int) (h : parse_pitch p = none) :
    transpose_pitch p n = p := by
  simp [transpose_pitch, h]

/-- transpose_pitch passes strings with unrecognized note names through
unchanged. -/
lemma transpose_pitch_unknown (p nm : List Char) (o : Nat) (n : Int)
    (hp : parse_pitch p = some (nm, o))
    (hl : lookupKeyIndex (normalize_key nm) = none) :
    transpose_pitch p n = p := by
  simp [transpose_pitch, hp, hl]

/-- Every safe pitch round-trips under transposition by d and back. -/
lemma safePitch_roundtrip (d : Int) (p : List Char) (h : safePitch d p) :
    transpose_pitch (transpose_pitch p d) (-d) = p := by
  rcases h with h | h | ⟨nm, o, hp, hl⟩ | ⟨pos, o, hpos, ho, hpe, hlo, hhi⟩
  · subst h; rfl
  · rw [transpose_pitch_unparsed p d h, transpose_pitch_unparsed p (-d) h]
  · rw [transpose_pitch_unknown p nm o d hp hl, transpose_pitch_unknown p nm o (-d) hp hl]
  · subst hpe; exact transpose_pitch_roundtrip_aux pos o d hpos ho hlo hhi

/-- The sharp names all belong to the canonical key set. -/
lemma mem_noteNames_canonical (k : List Char) (h : k ∈ NOTE_NAMES) : k ∈ CANONICAL_KEYS := by
  fin_cases h <;> decide

/-- The flat names all belong to the canonical key set. -/
lemma mem_flat_canonical (k : List Char) (h : k ∈ NOTE_NAMES_FLAT) : k ∈ CANONICAL_KEYS := by
  fin_cases h <;> decide

/-- A valid key resolves, after normalization, to its claimed sharp-based
chromatic index. -/
lemma valid_key_lookup (k : List Char) (h : isValidKey k = true) :
    lookupKeyIndex (normalize_key k) = some (keyIndexSpec k) := by
  have hm : k ∈ CANONICAL_KEYS := of_decide_eq_true h
  fin_cases hm <;> decide

/-- An invalid key fails both chromatic lookups after normalization. -/
lemma invalid_key_lookup (k : List Char) (h : isValidKey k = false) :
    lookupKeyIndex (normalize_key k) = none := by
  have hm : k ∉ CANONICAL_KEYS := of_decide_eq_false h
  have hnorm : normalize_key k = k := by
    rw [normalize_key]
    split_ifs with h1 h2 h3 h4 h5
    · subst h1; exact absurd (by decide) hm
    · subst h2; exact absurd (by decide) hm
    · subst h3; exact absurd (by decide) hm
    · subst h4; exact absurd (by decide) hm
    · subst h5; exact absurd (by decide) hm
    · rfl
  have hs : listIndex k NOTE_NAMES = none :=
    (listIndex_eq_none_iff k NOTE_NAMES).mpr (fun hk => hm (mem_noteNames_canonical k hk))
  have hf : listIndex k NOTE_NAMES_FLAT = none :=
    (listIndex_eq_none_iff k NOTE_NAMES_FLAT).mpr (fun hk => hm (mem_flat_canonical k hk))
  rw [hnorm]
  simp [lookupKeyIndex, hs, hf]

/-- dict.get over an association list agrees with the claim-side lookup
with a default. -/
lemma mapGet_eq_specLookup (m : List (List Char × List Char)) (k d : List Char) :
    mapGet m k d = (specLookup m k).getD d := by
  induction m with
  | nil => rfl
  | cons kv rest ih =>
    obtain ⟨k1, v⟩ := kv
    by_cases hk : k1 = k
    · subst hk; rw [mapGet, if_pos rfl, specLookup, if_pos rfl]; rfl
    · rw [mapGet, if_neg hk, specLookup, if_neg (fun e => hk e.symm)]; exact ih

/-- The style table selected by the source is entry-for-entry the table
enumerated by the claims. -/
lemma tableFor_eq (style : SargamStyle) :
    (if style = SargamStyle.hindustani then HINDUSTANI_SARGAM_MAP
     else CARNATIC_SARGAM_MAP)
      = (if style = SargamStyle.hindustani then HINDUSTANI_TABLE_SPEC
         else CARNATIC_TABLE_SPEC) := by
  cases style <;> rfl

/-- The style tables of the source agree with the claimed tables on every
listed letter class. -/
lemma mapGet_spec_some (style : SargamStyle) (nm s : List Char)
    (h : sargamSymbolSpec style nm = some s) :
    mapGet (if style = SargamStyle.hindustani then HINDUSTANI_SARGAM_MAP
            else CARNATIC_SARGAM_MAP) nm ['S', 'a'] = s := by
  rw [mapGet_eq_specLookup, tableFor_eq]
  rw [sargamSymbolSpec] at h
  rw [h]
  rfl

/-- The style tables of the source fall back to Sa exactly off the claimed
tables. -/
lemma mapGet_spec_none (style : SargamStyle) (nm : List Char)
    (h : sargamSymbolSpec style nm = none) :
    mapGet (if style = SargamStyle.hindustani then HINDUSTANI_SARGAM_MAP
            else CARNATIC_SARGAM_MAP) nm ['S', 'a'] = ['S', 'a'] := by
  rw [mapGet_eq_specLookup, tableFor_eq]
  rw [sargamSymbolSpec] at h
  rw [h]
  rfl

/-- transpose_notes on a valid key pair: the minor branch is the identity
adjustment, so both modes produce the per-note map. -/
lemma transpose_notes_ok (notes : List Note) (fk tk mode : List Char) (d : Int)
    (h : calculate_semitone_difference fk tk = .ok d) :
    transpose_notes notes fk tk mode = .ok (notes.map (transpose_note_aux d)) := by
  simp only [transpose_notes, h, apply_minor_scale_adjustments, ite_self]

/-- transpose_notes on an invalid key pair propagates the error. -/
lemma transpose_notes_error (notes : List Note) (fk tk mode : List Char)
    (e : TranspositionError)
    (h : calculate_semitone_difference fk tk = .error e) :
    transpose_notes notes fk tk mode = .error e := by
  simp only [transpose_notes, h]

/-- Each note of the transposed batch is frame-related to its original. -/
lemma transpose_frame (d : Int) (notes : List Note) :
    List.Forall₂ (frameRel d) notes (notes.map (transpose_note_aux d)) := by
  induction notes with
  | nil => exact List.Forall₂.nil
  | cons nt rest ih =>
    refine List.Forall₂.cons ?_ ih
    by_cases hz : nt.pitch = []
    · rw [transpose_note_aux, if_pos hz]
      exact ⟨rfl, rfl, rfl, fun _ => rfl, fun hne => absurd hz hne⟩
    · rw [transpose_note_aux, if_neg hz]
      exact ⟨rfl, rfl, rfl, fun he => absurd he hz, fun _ => ⟨rfl, rfl⟩⟩

/-- The element-wise check of validate_transposition succeeds on a batch
of safe pitches transposed by seven semitones. -/
lemma all_roundtrip (notes : List Note)
    (h : ∀ nt ∈ notes, safePitch 7 nt.pitch) :
    ((notes.zip (notes.map (transpose_note_aux 7))).all (fun ot =>
      if ot.1.pitch = [] ∨ ot.2.pitch = [] then true
      else decide (transpose_pitch ot.2.pitch (-7) = ot.1.pitch))) = true := by
  induction notes with
  | nil => rfl
  | cons nt rest ih =>
    rw [List.map_cons, List.zip_cons_cons, List.all_cons,
        ih (fun x hx => h x (List.mem_cons_of_mem _ hx)), Bool.and_true]
    have hsp := h nt (List.mem_cons_self _ _)
    by_cases hz : nt.pitch = [] ∨ (transpose_note_aux 7 nt).pitch = []
    · rw [if_pos hz]
    · rw [if_neg hz]
      have hne : nt.pitch ≠ [] := fun e => hz (Or.inl e)
      have hb : (transpose_note_aux 7 nt).pitch = transpose_pitch nt.pitch 7 := by
        rw [transpose_note_aux, if_neg hne]
      rw [decide_eq_true_iff, hb]
      exact safePitch_roundtrip 7 nt.pitch hsp

/-- validate_transposition accepts a safe batch against its own
seven-semitone transposition. -/
lemma validate_transpose_map (notes : List Note)
    (h : ∀ nt ∈ notes, safePitch 7 nt.pitch) :
    validate_transposition notes (notes.map (transpose_note_aux 7)) 7 = true := by
  rw [validate_transposition, if_neg (by simp), all_roundtrip notes h]

/-- The octave marking of the source equals the claimed octave rule (the
source lowercases identically in both style branches). -/
lemma sargam_mark_eq (style : SargamStyle) (s : List Char) (o : Nat) :
    sargam_mark style s o = octaveRuleSpec s o := by
  cases style <;> simp [sargam_mark, octaveRuleSpec]

/-- Unfolding convert_to_sargam over a parseable head note. -/
lemma convert_to_sargam_cons_some (note : Note) (rest : List Note)
    (style : SargamStyle) (nm : List Char) (o : Nat)
    (hp : parse_pitch note.pitch = some (nm, o)) :
    convert_to_sargam (note :: rest) style
      = { sym := sargam_mark style
             (mapGet (if style = SargamStyle.hindustani then HINDUSTANI_SARGAM_MAP
                      else CARNATIC_SARGAM_MAP) nm ['S', 'a']) o,
          startTime := note.startTime, duration := note.duration,
          velocity := note.velocity }
        :: convert_to_sargam rest style := by
  simp only [convert_to_sargam, List.filterMap_cons, hp]

/-- Unfolding convert_to_western over a parseable head note. -/
lemma convert_to_western_cons_some (note : Note) (rest : List Note)
    (nm : List Char) (o : Nat)
    (hp : parse_pitch note.pitch = some (nm, o)) :
    (convert_to_western (note :: rest)).notes
      = { pitch := note.pitch, noteName := nm, octave := o,
          startTime := note.startTime, duration := note.duration,
          velocity := note.velocity }
        :: (convert_to_western rest).notes := by
  simp only [convert_to_western, List.filterMap_cons, hp]

/-- Unfolding convert_to_alphabetical over a head element. -/
lemma convert_to_alphabetical_cons {α : Type} [PitchRecord α] (x : α) (xs : List α) :
    convert_to_alphabetical (x :: xs)
      = { sym := PitchRecord.pitch x, startTime := PitchRecord.startTime x,
          duration := PitchRecord.duration x, velocity := PitchRecord.velocity x }
        :: convert_to_alphabetical xs := rfl

/-- Element lookup distributes over zip. -/
lemma zip_get_some {α β : Type} (l1 : List α) (l2 : List β) (i : Nat) (a : α) (b : β)
    (h1 : l1.get? i = some a) (h2 : l2.get? i = some b) :
    (l1.zip l2).get? i = some (a, b) := by
  induction l1 generalizing l2 i with
  | nil => simp at h1
  | cons x xs ih =>
    cases l2 with
    | nil => simp at h2
    | cons y ys =>
      cases i with
      | zero =>
        simp only [List.get?_cons_zero, Option.some.injEq] at h1 h2
        subst h1; subst h2
        rfl
      | succ j =>
        simp only [List.get?_cons_succ] at h1 h2
        rw [List.zip_cons_cons, List.get?_cons_succ]
        exact ih ys j h1 h2

end Lemmas

/- The claims. -/

/-- Claim C1, counterexample: the valid pitch C0 transposed down one
semitone renders as B-1, which re-parses with letter class B- and passes
through unchanged, so the round trip does not restore C0. -/
theorem claim_C1_counterexample :
    transpose_pitch (transpose_pitch ['C', '0'] (-1)) 1 ≠ ['C', '0'] := by
  decide

/-- Claim C1 (amended): for every pitch made of one of the 12 canonical
sharp-based note names and a single-digit octave, and every integer n for
which the transposed octave is again within 0..9, transposing by n and
then by -n restores the pitch exactly. -/
theorem claim_C1_roundtrip (pos o : Nat) (n : Int) (hpos : pos < 12) (ho : o ≤ 9)
    (hlo : 0 ≤ (o : Int) + ((pos : Int) + n) / 12)
    (hhi : (o : Int) + ((pos : Int) + n) / 12 ≤ 9) :
    transpose_pitch (transpose_pitch (noteName pos ++ [digitChar o]) n) (-n)
      = noteName pos ++ [digitChar o] :=
  transpose_pitch_roundtrip_aux pos o n hpos ho hlo hhi

/-- Claim C1 witness: C4 transposed up seven semitones and back. -/
theorem claim_C1_witness :
    transpose_pitch (transpose_pitch (noteName 0 ++ [digitChar 4]) 7) (-7)
      = noteName 0 ++ [digitChar 4] :=
  claim_C1_roundtrip 0 4 7 (by decide) (by decide) (by decide) (by decide)

/-- Claim C2: calculate_semitone_difference maps each valid key to its
sharp-based chromatic index and returns exactly the raw index difference
(no octave minimization: G to C gives -7, C to D gives 2), and it fails
with the designated invalid-key error exactly when one of the keys is not
one of the 12 canonical chromatic names or their flat aliases. -/
theorem claim_C2_interval :
    (∀ fk tk, calculate_semitone_difference fk tk
        = if isValidKey fk && isValidKey tk
            then .ok ((keyIndexSpec tk : Int) - (keyIndexSpec fk : Int))
            else .error .invalidKeyError)
    ∧ calculate_semitone_difference ['G'] ['C'] = .ok (-7)
    ∧ calculate_semitone_difference ['C'] ['D'] = .ok 2 := by
  refine ⟨?_, by rfl, by rfl⟩
  intro fk tk
  cases h1 : isValidKey fk with
  | false => simp [calculate_semitone_difference, invalid_key_lookup fk h1, h1]
  | true =>
    cases h2 : isValidKey tk with
    | false =>
      simp [calculate_semitone_difference, valid_key_lookup fk h1,
            invalid_key_lookup tk h2, h1, h2]
    | true =>
      simp [calculate_semitone_difference, valid_key_lookup fk h1,
            valid_key_lookup tk h2, h1, h2]

/-- Claim C3, counterexample: a note with an empty pitch but a pitchMidi
field is copied unchanged by transpose_notes, so its midi index is not
shifted by the computed delta 2. -/
theorem claim_C3_counterexample :
    transpose_notes
        [{ pitch := [], pitchMidi := some 60, startTime := 0, duration := 1, velocity := 80 }]
        ['C'] ['D'] ("major".toList)
      = .ok [{ pitch := [], pitchMidi := some 60, startTime := 0, duration := 1,
               velocity := 80 }]
    ∧ calculate_semitone_difference ['C'] ['D'] = .ok 2
    ∧ (some (60 : Int)).map (fun m => m + 2) ≠ some (60 : Int) :=
  ⟨by rfl, by rfl, by decide⟩

/-- Claim C3 (amended): on a valid key pair transpose_notes returns a
same-length, same-order batch in which times and velocity are unchanged,
notes with an empty pitch are copied verbatim, and every note with a
non-empty pitch has its pitch transposed and any midi index shifted by
exactly the computed delta. -/
theorem claim_C3_frame (notes : List Note) (fk tk mode : List Char) (d : Int)
    (out : List Note)
    (hd : calculate_semitone_difference fk tk = .ok d)
    (hout : transpose_notes notes fk tk mode = .ok out) :
    out.length = notes.length ∧ List.Forall₂ (frameRel d) notes out := by
  have hok := transpose_notes_ok notes fk tk mode d hd
  rw [hout] at hok
  have he : out = notes.map (transpose_note_aux d) := Except.ok.inj hok
  subst he
  exact ⟨List.length_map _ _, transpose_frame d notes⟩

/-- Claim C3 witness: one C4 note with midi index 60 transposed from C to
D. -/
theorem claim_C3_witness :
    ([{ pitch := ['D', '4'], pitchMidi := some 62, startTime := 0, duration := 1,
        velocity := 80 }] : List Note).length
      = ([{ pitch := ['C', '4'], pitchMidi := some 60, startTime := 0, duration := 1,
            velocity := 80 }] : List Note).length
    ∧ List.Forall₂ (frameRel 2)
        [{ pitch := ['C', '4'], pitchMidi := some 60, startTime := 0, duration := 1,
           velocity := 80 }]
        [{ pitch := ['D', '4'], pitchMidi := some 62, startTime := 0, duration := 1,
           velocity := 80 }] :=
  claim_C3_frame
    [{ pitch := ['C', '4'], pitchMidi := some 60, startTime := 0, duration := 1,
       velocity := 80 }]
    ['C'] ['D'] ("major".toList) 2
    [{ pitch := ['D', '4'], pitchMidi := some 62, startTime := 0, duration := 1,
       velocity := 80 }]
    (by rfl) (by rfl)

/-- Claim C4: convert_to_sargam maps each parseable pitch whose letter
class is in the 12-entry table of the selected style through that table
and applies the octave rule: below 4 lowercase, above 4 one trailing
apostrophe, at 4 unmodified. -/
theorem claim_C4_sargam_table (note : Note) (rest : List Note) (style : SargamStyle)
    (nm s : List Char) (o : Nat)
    (hp : parse_pitch note.pitch = some (nm, o))
    (hs : sargamSymbolSpec style nm = some s) :
    convert_to_sargam (note :: rest) style
      = { sym := octaveRuleSpec s o, startTime := note.startTime,
          duration := note.duration, velocity := note.velocity }
        :: convert_to_sargam rest style := by
  rw [convert_to_sargam_cons_some note rest style nm o hp,
      mapGet_spec_some style nm s hs, sargam_mark_eq]

/-- Claim C4 witness: C5 in Hindustani style renders as Sa with one
trailing apostrophe. -/
theorem claim_C4_witness :
    convert_to_sargam
        [{ pitch := ['C', '5'], pitchMidi := none, startTime := 0, duration := 1,
           velocity := 80 }] SargamStyle.hindustani
      = [{ sym := ['S', 'a', apostropheChar], startTime := 0, duration := 1,
           velocity := 80 }] := by
  have h := claim_C4_sargam_table
    { pitch := ['C', '5'], pitchMidi := none, startTime := 0, duration := 1,
      velocity := 80 }
    [] SargamStyle.hindustani ['C'] ['S', 'a'] 5 (by decide) (by decide)
  exact h.trans (by decide)

/-- Claim C5: every malformed pitch string (shorter than two characters,
no digit octave in position 1 or 2, or an unrecognized letter name)
passes through transpose_pitch unchanged. -/
theorem claim_C5_malformed (p : List Char) (n : Int) :
    (p.length < 2 → transpose_pitch p n = p)
    ∧ (parse_pitch p = none → transpose_pitch p n = p)
    ∧ (∀ nm o, parse_pitch p = some (nm, o) →
         lookupKeyIndex (normalize_key nm) = none → transpose_pitch p n = p) := by
  refine ⟨?_, ?_, ?_⟩
  · intro h; exact transpose_pitch_unparsed p n (parse_pitch_short p h)
  · intro h; exact transpose_pitch_unparsed p n h
  · intro nm o hp hl; exact transpose_pitch_unknown p nm o n hp hl

/-- Claim C5 witness: the unrecognized letter H passes through. -/
theorem claim_C5_witness : transpose_pitch ['H', '4'] 5 = ['H', '4'] :=
  (claim_C5_malformed ['H', '4'] 5).2.2 ['H'] 4 (by decide) (by decide)

/-- Claim C6: convert_notes succeeds exactly on the three recognized
format values, tags its result with the requested format, carries the
requested style when the format is sargam, and fails with the designated
unsupported-format error otherwise. -/
theorem claim_C6_dispatch (notes : List Note) (format : List Char) (style : SargamStyle) :
    ((∃ r, convert_notes notes format style = .ok r)
        ↔ (format = "sargam".toList ∨ format = "western".toList
             ∨ format = "alphabetical".toList))
    ∧ (∀ r, convert_notes notes format style = .ok r → r.formatField = format)
    ∧ (∀ r, convert_notes notes format style = .ok r → format = "sargam".toList →
         r.styleField = some style)
    ∧ (format ≠ "sargam".toList → format ≠ "western".toList →
         format ≠ "alphabetical".toList →
         convert_notes notes format style = .error .unsupportedFormatError) := by
  by_cases h1 : format = "sargam".toList
  · subst h1
    simp [convert_notes, ConvertResult.formatField, ConvertResult.styleField]
  · by_cases h2 : format = "western".toList
    · subst h2
      simp [convert_notes, ConvertResult.formatField, ConvertResult.styleField, h1]
    · by_cases h3 : format = "alphabetical".toList
      · subst h3
        simp [convert_notes, ConvertResult.formatField, ConvertResult.styleField, h1, h2]
      · have he : convert_notes notes format style = .error .unsupportedFormatError := by
          rw [convert_notes, if_neg h1, if_neg h2, if_neg h3]
        refine ⟨⟨?_, ?_⟩, ?_, ?_, ?_⟩
        · rintro ⟨r, hr⟩
          rw [he] at hr
          exact Except.noConfusion hr
        · rintro (hf | hf | hf)
          · exact absurd hf h1
          · exact absurd hf h2
          · exact absurd hf h3
        · intro r hr
          rw [he] at hr
          exact Except.noConfusion hr
        · intro r hr
          rw [he] at hr
          exact Except.noConfusion hr
        · intro _ _ _
          exact he

/-- Claim C6 witness: an unrecognized format string produces the
designated error. -/
theorem claim_C6_witness :
    convert_notes [] ['X'] SargamStyle.hindustani = .error .unsupportedFormatError :=
  (claim_C6_dispatch [] ['X'] SargamStyle.hindustani).2.2.2
    (by decide) (by decide) (by decide)

/-- Claim C7, counterexample: a note with an empty pitch is dropped by
convert_to_western, so the composition with convert_to_alphabetical
returns no entry for it rather than one entry per original note. -/
theorem claim_C7_counterexample :
    (convert_to_alphabetical
        ((convert_to_western
            [{ pitch := [], pitchMidi := none, startTime := 0, duration := 1,
               velocity := 80 }]).notes)).length = 0
    ∧ ([{ pitch := [], pitchMidi := none, startTime := 0, duration := 1,
          velocity := 80 }] : List Note).length = 1 :=
  ⟨by rfl, by rfl⟩

/-- Claim C7 (amended): when every pitch of the batch parses, the
composition of convert_to_western and convert_to_alphabetical returns one
entry per original note whose symbol is the original pitch string
verbatim. -/
theorem claim_C7_roundtrip (notes : List Note)
    (h : ∀ nt ∈ notes, parse_pitch nt.pitch ≠ none) :
    convert_to_alphabetical ((convert_to_western notes).notes)
      = notes.map (fun nt =>
          { sym := nt.pitch, startTime := nt.startTime, duration := nt.duration,
            velocity := nt.velocity }) := by
  induction notes with
  | nil => rfl
  | cons nt rest ih =>
    have hnt := h nt (List.mem_cons_self _ _)
    cases hp : parse_pitch nt.pitch with
    | none => exact absurd hp hnt
    | some x =>
      obtain ⟨nm, o⟩ := x
      rw [convert_to_western_cons_some nt rest nm o hp, convert_to_alphabetical_cons,
          List.map_cons, ih (fun x hx => h x (List.mem_cons_of_mem _ hx))]
      rfl

/-- Claim C7 witness: one parseable note survives the composition with
its pitch intact. -/
theorem claim_C7_witness :
    convert_to_alphabetical
        ((convert_to_western
            [{ pitch := ['C', '4'], pitchMidi := some 60, startTime := 0, duration := 1,
               velocity := 80 }]).notes)
      = [{ sym := ['C', '4'], startTime := 0, duration := 1, velocity := 80 }] := by
  have h := claim_C7_roundtrip
    [{ pitch := ['C', '4'], pitchMidi := some 60, startTime := 0, duration := 1,
       velocity := 80 }]
    (by decide)
  exact h.trans (by decide)

/-- Claim C8, counterexample: at index 0 the transposed pitch D4 taken
back by two semitones gives C4, which differs from the empty original
pitch, yet validate_transposition skips the index and returns true
rather than false. -/
theorem claim_C8_counterexample :
    validate_transposition
        [{ pitch := [], pitchMidi := none, startTime := 0, duration := 1, velocity := 80 }]
        [{ pitch := ['D', '4'], pitchMidi := none, startTime := 0, duration := 1,
           velocity := 80 }] 2 = true
    ∧ transpose_pitch ['D', '4'] (-2) ≠ [] :=
  ⟨by decide, by decide⟩

/-- Claim C8 (amended): validate_transposition returns false on any
length mismatch and on any index where both pitches are non-empty and the
back-transposed pitch differs from the original; and for a batch of safe
pitches it accepts the C-to-G transposition against delta 7. -/
theorem claim_C8_validate :
    (∀ (o t : List Note) (s : Int), o.length ≠ t.length →
       validate_transposition o t s = false)
    ∧ (∀ (o t : List Note) (s : Int) (i : Nat) (a b : Note),
         o.get? i = some a → t.get? i = some b → a.pitch ≠ [] → b.pitch ≠ [] →
         transpose_pitch b.pitch (-s) ≠ a.pitch →
         validate_transposition o t s = false)
    ∧ (∀ (notes out : List Note) (mode : List Char),
         (∀ nt ∈ notes, safePitch 7 nt.pitch) →
         transpose_notes notes ['C'] ['G'] mode = .ok out →
         validate_transposition notes out 7 = true) := by
  refine ⟨?_, ?_, ?_⟩
  · intro o t s h
    rw [validate_transposition, if_pos h]
  · intro o t s i a b ha hb hae hbe hne
    rw [validate_transposition]
    by_cases hl : o.length ≠ t.length
    · rw [if_pos hl]
    · rw [if_neg hl]
      have hmem : (a, b) ∈ o.zip t := List.get?_mem (zip_get_some o t i a b ha hb)
      refine Bool.eq_false_iff.mpr (fun hall => ?_)
      have hp := List.all_eq_true.mp hall (a, b) hmem
      rw [if_neg (by simp [hae, hbe])] at hp
      exact hne (of_decide_eq_true hp)
  · intro notes out mode hsafe hok
    have hmap := transpose_notes_ok notes ['C'] ['G'] mode 7 (by rfl)
    rw [hok] at hmap
    have he : out = notes.map (transpose_note_aux 7) := Except.ok.inj hmap
    subst he
    exact validate_transpose_map notes hsafe

/-- Claim C8 witness: a single C4 note transposed from C to G validates
against delta 7. -/
theorem claim_C8_witness :
    validate_transposition
        [{ pitch := ['C', '4'], pitchMidi := none, startTime := 0, duration := 1,
           velocity := 80 }]
        [{ pitch := ['G', '4'], pitchMidi := none, startTime := 0, duration := 1,
           velocity := 80 }] 7 = true :=
  claim_C8_validate.2.2
    [{ pitch := ['C', '4'], pitchMidi := none, startTime := 0, duration := 1,
       velocity := 80 }]
    [{ pitch := ['G', '4'], pitchMidi := none, startTime := 0, duration := 1,
       velocity := 80 }]
    ("major".toList)
    (by
      intro nt hnt
      fin_cases hnt
      exact Or.inr (Or.inr (Or.inr
        ⟨0, 4, by omega, by omega, by decide, by decide, by decide⟩)))
    (by rfl)

/-- Claim C9: the mode parameter has no effect: transposing with mode
minor returns exactly the output of mode major for every batch and every
key pair. -/
theorem claim_C9_mode_noop (notes : List Note) (fk tk : List Char) :
    transpose_notes notes fk tk ("minor".toList)
      = transpose_notes notes fk tk ("major".toList) := by
  cases h : calculate_semitone_difference fk tk with
  | error e =>
    rw [transpose_notes_error notes fk tk _ e h, transpose_notes_error notes fk tk _ e h]
  | ok d =>
    rw [transpose_notes_ok notes fk tk _ d h, transpose_notes_ok notes fk tk _ d h]

/-- Claim C10: a parseable pitch whose letter class is outside the
12-entry table (for example a flat spelling, which convert_to_sargam does
not normalize) is not skipped: both styles emit the default symbol Sa
with the octave marker applied. -/
theorem claim_C10_default_sa (note : Note) (rest : List Note) (style : SargamStyle)
    (nm : List Char) (o : Nat)
    (hp : parse_pitch note.pitch = some (nm, o))
    (hs : sargamSymbolSpec style nm = none) :
    convert_to_sargam (note :: rest) style
      = { sym := octaveRuleSpec ['S', 'a'] o, startTime := note.startTime,
          duration := note.duration, velocity := note.velocity }
        :: convert_to_sargam rest style := by
  rw [convert_to_sargam_cons_some note rest style nm o hp,
      mapGet_spec_none style nm hs, sargam_mark_eq]

/-- Claim C10 witness: Db4 in Carnatic style renders as the default Sa
even though Sa is not a Carnatic symbol. -/
theorem claim_C10_witness :
    convert_to_sargam
        [{ pitch := ['D', 'b', '4'], pitchMidi := none, startTime := 0, duration := 1,
           velocity := 80 }] SargamStyle.carnatic
      = [{ sym := ['S', 'a'], startTime := 0, duration := 1, velocity := 80 }] := by
  have h := claim_C10_default_sa
    { pitch := ['D', 'b', '4'], pitchMidi := none, startTime := 0, duration := 1,
      velocity := 80 }
    [] SargamStyle.carnatic ['D', 'b'] 4 (by decide) (by decide)
  exact h.trans (by decide)

end Tansen
